import Mathlib

/-!
Shallow embedding of the wasp WebAssembly toolkit fragments under
verification: the text writer (include/wasp/text/write.h) and the
validate tool's visitor (src/tools/validate.cc).  C++ std::string
values are modelled as `List Char`; output iterators are modelled by
threading the accumulated output list; every writer takes the mutable
`WriteContext` and returns the updated context with the output.
-/

def chars (s : String) : List Char := s.data

/-- Numeric base for literals (text/numeric.h). -/
inductive Base
  | Decimal
  | Hex
deriving DecidableEq

/-- The text writer's mutable formatting context (write.h, `WriteContext`):
a pending separator, the current indent (initially a newline), and the
numeric base.  Defaults: separator `""`, indent `"\n"`, base decimal. -/
structure WriteContext where
  separator : List Char
  indent : List Char
  base : Base
deriving DecidableEq

def WriteContext.ClearSeparator (c : WriteContext) : WriteContext :=
  ⟨[], c.indent, c.base⟩

def WriteContext.Space (c : WriteContext) : WriteContext :=
  ⟨chars " ", c.indent, c.base⟩

def WriteContext.Newline (c : WriteContext) : WriteContext :=
  ⟨c.indent, c.indent, c.base⟩

def WriteContext.Indent (c : WriteContext) : WriteContext :=
  ⟨c.separator, c.indent ++ chars "  ", c.base⟩

/-- `indent.erase(indent.size() - 2)`: drop the last two characters.
(When the indent is shorter than two characters the C++ call would
throw; the writer only dedents after a matching indent.) -/
def WriteContext.Dedent (c : WriteContext) : WriteContext :=
  ⟨c.separator, c.indent.take (c.indent.length - 2), c.base⟩

/-- The initial context used by the text writer. -/
def initContext : WriteContext := ⟨[], chars "\n", Base.Decimal⟩

/-- `WriteRaw`: copy the characters to the output, context unchanged. -/
def WriteRaw (c : WriteContext) (v : List Char) (out : List Char) :
    WriteContext × List Char :=
  (c, out ++ v)

/-- `WriteSeparator`: write the pending separator, then clear it. -/
def WriteSeparator (c : WriteContext) (out : List Char) :
    WriteContext × List Char :=
  let p := WriteRaw c c.separator out
  ((p.1).ClearSeparator, p.2)

/-- `WriteFormat`: flush the separator, write the formatted token
(pre-rendered here as a character list), set the separator to `" "`. -/
def WriteFormatStr (c : WriteContext) (s : List Char) (out : List Char) :
    WriteContext × List Char :=
  let p := WriteSeparator c out
  let p := WriteRaw p.1 s p.2
  ((p.1).Space, p.2)

/-- `Write(WriteContext&, string_view, Iterator)`: flush the separator,
write the token, set the separator to `" "`. -/
def WriteStr (c : WriteContext) (v : List Char) (out : List Char) :
    WriteContext × List Char :=
  let p := WriteSeparator c out
  let p := WriteRaw p.1 v p.2
  ((p.1).Space, p.2)

/-- `WriteLpar`: flush the separator, then write `(`; the separator is
left cleared so nothing follows the `(`. -/
def WriteLpar (c : WriteContext) (out : List Char) :
    WriteContext × List Char :=
  let p := WriteSeparator c out
  WriteRaw p.1 (chars "(") p.2

/-- `WriteLpar` with a keyword: `(` then the name, separator `" "`. -/
def WriteLparName (c : WriteContext) (name : List Char) (out : List Char) :
    WriteContext × List Char :=
  let p := WriteLpar c out
  let p := WriteRaw p.1 name p.2
  ((p.1).Space, p.2)

/-- `WriteRpar`: clear the pending separator, write `)`, then set the
separator to `" "`. -/
def WriteRpar (c : WriteContext) (out : List Char) :
    WriteContext × List Char :=
  let c := c.ClearSeparator
  let p := WriteRaw c (chars ")") out
  ((p.1).Space, p.2)

/-- Modelled from the spec: `NatToStr` of text/numeric.h is not under
src/; integers use the context's base (decimal digits, or `0x` hex). -/
def natToStr (b : Base) (n : Nat) : List Char :=
  match b with
  | Base.Decimal => Nat.toDigits 10 n
  | Base.Hex => chars "0x" ++ Nat.toDigits 16 n

/-- Modelled from the spec: `IntToStr` of text/numeric.h is not under
src/. -/
def intToStr (b : Base) (i : Int) : List Char :=
  if i < 0 then chars "-" ++ natToStr b i.natAbs else natToStr b i.natAbs

/-- `WriteNat`: write the numeral in the context's base as a token. -/
def WriteNat (c : WriteContext) (n : Nat) (out : List Char) :
    WriteContext × List Char :=
  WriteStr c (natToStr c.base n) out

/-- `Write` for signed integrals. -/
def WriteInt (c : WriteContext) (i : Int) (out : List Char) :
    WriteContext × List Char :=
  WriteStr c (intToStr c.base i) out

/-- `MemArgImmediate`: optional alignment and offset (both u32). -/
structure MemArgImmediate where
  align : Option Nat
  offset : Option Nat
deriving DecidableEq

/-- `Write(WriteContext&, const MemArgImmediate&, Iterator)` (write.h):
when present, `offset=` is written, the separator is cleared, and the
numeral follows; then likewise for `align=`. -/
def WriteMemArg (c : WriteContext) (v : MemArgImmediate) (out : List Char) :
    WriteContext × List Char :=
  let p :=
    match v.offset with
    | some o =>
      let p := WriteStr c (chars "offset=") out
      let c := (p.1).ClearSeparator
      WriteNat c o p.2
    | none => (c, out)
  match v.align with
  | some a =>
    let q := WriteStr p.1 (chars "align=") p.2
    let c := (q.1).ClearSeparator
    WriteNat c a q.2
  | none => p

/-- Result of a visitor callback (`visit::Result`). -/
inductive VisitResult
  | Ok
  | Fail
deriving DecidableEq

/-- The twelve known section ids (binary/section_id.h). -/
inductive SectionId
  | Type'
  | Import
  | Function
  | Table
  | Memory
  | Global
  | Export
  | Start
  | Element
  | DataCount
  | Code
  | Data
deriving DecidableEq, BEq

/-- `kSectionOrder` (validate.cc): the canonical section order. -/
def kSectionOrder : List SectionId :=
  [SectionId.Type', SectionId.Import, SectionId.Function, SectionId.Table,
   SectionId.Memory, SectionId.Global, SectionId.Export, SectionId.Start,
   SectionId.Element, SectionId.DataCount, SectionId.Code, SectionId.Data]

/-- `get_order` (validate.cc): position of a section id in
`kSectionOrder` (`std::find`; every id of the model occurs, so the
"Unknown section id" branch is unreachable here). -/
def getOrder (id : SectionId) : Option Nat :=
  kSectionOrder.indexOf? id

/-- Following the claim's words: canonical position of a known section
in the order Type, Import, Function, Table, Memory, Global, Export,
Start, Element, DataCount, Code, Data. -/
def canonicalPos : SectionId → Nat
  | SectionId.Type' => 0
  | SectionId.Import => 1
  | SectionId.Function => 2
  | SectionId.Table => 3
  | SectionId.Memory => 4
  | SectionId.Global => 5
  | SectionId.Export => 6
  | SectionId.Start => 7
  | SectionId.Element => 8
  | SectionId.DataCount => 9
  | SectionId.Code => 10
  | SectionId.Data => 11

/-- `optional<int> >= optional<int>` as C++ defines it: an empty
optional compares less than any engaged one. -/
def optGE : Option Nat → Option Nat → Bool
  | none, none => true
  | none, some _ => false
  | some _, none => true
  | some x, some y => decide (y ≤ x)

/-- A top-level section as delivered to the visitor: custom (with a
name) or known (with its id); payloads are irrelevant to `OnSection`. -/
inductive Section
  | custom (name : List Char)
  | known (id : SectionId)
deriving DecidableEq

/-- Modelled from the spec: the error formatter renders a `SectionId`
as its name (formatters are not under src/; §8 scenario 5 shows
"Import" / "Function"). -/
def sectionIdStr : SectionId → List Char
  | SectionId.Type' => chars "Type"
  | SectionId.Import => chars "Import"
  | SectionId.Function => chars "Function"
  | SectionId.Table => chars "Table"
  | SectionId.Memory => chars "Memory"
  | SectionId.Global => chars "Global"
  | SectionId.Export => chars "Export"
  | SectionId.Start => chars "Start"
  | SectionId.Element => chars "Element"
  | SectionId.DataCount => chars "DataCount"
  | SectionId.Code => chars "Code"
  | SectionId.Data => chars "Data"

/-- The out-of-order diagnostic of `OnSection` (validate.cc):
`format("Section out of order: {} cannot occur after {}\n", id, last)`. -/
def outOfOrderMsg (id prev : SectionId) : List Char :=
  chars "Section out of order: " ++ sectionIdStr id
    ++ chars " cannot occur after " ++ sectionIdStr prev ++ chars "\n"

/-- `Tool::Visitor::OnSection` (validate.cc lines 190-229): custom
sections are ignored; a known section is rejected when the previously
seen known section's order is `>=` its own.  Returns the result, the
updated `last_section_id`, and the emitted error messages. -/
def OnSection (last : Option SectionId) (s : Section) :
    VisitResult × Option SectionId × List (List Char) :=
  match s with
  | Section.custom _ => (VisitResult.Ok, last, [])
  | Section.known id =>
    match last with
    | some prev =>
      if optGE (getOrder prev) (getOrder id) then
        (VisitResult.Fail, some prev, [outOfOrderMsg id prev])
      else
        (VisitResult.Ok, some id, [])
    | none => (VisitResult.Ok, some id, [])

/-- Iterate `OnSection` over the sections of a module in file order,
threading `last_section_id`; true when every call returns `Ok`. -/
def runSections (last : Option SectionId) : List Section → Bool
  | [] => true
  | s :: rest =>
    match OnSection last s with
    | (VisitResult.Ok, last', _) => runSections last' rest
    | (VisitResult.Fail, _, _) => false

/-- The ids of the known sections of a list, in order. -/
def knownIds : List Section → List SectionId
  | [] => []
  | Section.custom _ :: rest => knownIds rest
  | Section.known id :: rest => id :: knownIds rest

/-- `Tool::Visitor::FailUnless` (validate.cc lines 296-298). -/
def FailUnless (b : Bool) : VisitResult :=
  if b then VisitResult.Ok else VisitResult.Fail

/-- The entry-validation loops of `OnCode` (validate.cc lines 276-287):
validate entries in order, threading the validation context, and return
to the caller at the first failure.  The validator itself lives under
valid/ (not in src/), so it is a parameter. -/
def validateAll {σ α : Type} (f : α → σ → Bool × σ) : List α → σ → Bool × σ
  | [], s => (true, s)
  | x :: xs, s =>
    let p := f x s
    if p.1 then validateAll f xs p.2 else (false, p.2)

/-- `Tool::Visitor::OnCode` (validate.cc lines 271-290): `BeginCode`,
then each locals declaration, then each instruction of the body, each
loop returning `Fail` as soon as one validation fails. -/
def OnCode {σ L I : Type} (beginCode : σ → Bool × σ)
    (validateLocals : L → σ → Bool × σ) (validateInstr : I → σ → Bool × σ)
    (locals : List L) (body : List I) (s : σ) : VisitResult × σ :=
  let p0 := beginCode s
  if p0.1 then
    let p1 := validateAll validateLocals locals p0.2
    if p1.1 then
      let p2 := validateAll validateInstr body p1.2
      if p2.1 then (VisitResult.Ok, p2.2) else (VisitResult.Fail, p2.2)
    else (VisitResult.Fail, p1.2)
  else (VisitResult.Fail, p0.2)

/-- The per-file loop of `Main` (validate.cc lines 144-155): each file
either fails to read (`none`) or is run through the tool (`some ok`);
`ok` accumulates with `&=` and a read failure sets it false and
continues.  Returns the accumulated flag and the files processed. -/
def mainLoop : List (Option Bool) → Bool → Bool × List (Option Bool)
  | [], ok => (ok, [])
  | f :: rest, ok =>
    let ok' := match f with | none => false | some b => ok && b
    let p := mainLoop rest ok'
    (p.1, f :: p.2)

/-- `Main` (validate.cc lines 127-158): with no filenames it prints
help and exits 1 (`PrintHelp(1)`); otherwise it processes every file
and returns `ok ? 0 : 1`. -/
def Main (files : List (Option Bool)) : Nat :=
  if files.isEmpty then 1
  else if (mainLoop files true).1 then 0 else 1

/-- `Var`: a u32 index or a text identifier (text/types.h shape as
used by write.h: `holds_alternative<u32>` vs `string_view`). -/
inductive Var
  | idx (n : Nat)
  | name (s : List Char)
deriving DecidableEq

/-- `Write(WriteContext&, Var, Iterator)`: `WriteNat` for an index,
plain token for a name. -/
def WriteVar (c : WriteContext) (v : Var) (out : List Char) :
    WriteContext × List Char :=
  match v with
  | Var.idx n => WriteNat c n out
  | Var.name s => WriteStr c s out

/-- `Write` for a `VarList` (`WriteVector`). -/
def WriteVarList (c : WriteContext) : List Var → List Char →
    WriteContext × List Char
  | [], out => (c, out)
  | v :: vs, out =>
    let p := WriteVar c v out
    WriteVarList p.1 vs p.2

/-- `Write` for `optional<T>`: write nothing when absent. -/
def WriteOptVar (c : WriteContext) (v : Option Var) (out : List Char) :
    WriteContext × List Char :=
  match v with
  | some x => WriteVar c x out
  | none => (c, out)

def WriteOptStr (c : WriteContext) (v : Option (List Char)) (out : List Char) :
    WriteContext × List Char :=
  match v with
  | some s => WriteStr c s out
  | none => (c, out)

/-- Value types (text/types.h; the inventory used by the writer). -/
inductive ValueType
  | I32
  | I64
  | F32
  | F64
  | V128
  | Funcref
  | Externref
deriving DecidableEq

/-- Modelled from the spec: the formatter of a `ValueType` (formatters
are not under src/; the src test shows `concat(VT_I32) == "i32"`). -/
def valueTypeChars : ValueType → List Char
  | ValueType.I32 => chars "i32"
  | ValueType.I64 => chars "i64"
  | ValueType.F32 => chars "f32"
  | ValueType.F64 => chars "f64"
  | ValueType.V128 => chars "v128"
  | ValueType.Funcref => chars "funcref"
  | ValueType.Externref => chars "externref"

/-- `Write(WriteContext&, const ValueType&, Iterator)` = `WriteFormat`. -/
def WriteValueType (c : WriteContext) (v : ValueType) (out : List Char) :
    WriteContext × List Char :=
  WriteFormatStr c (valueTypeChars v) out

def WriteValueTypeList (c : WriteContext) : List ValueType → List Char →
    WriteContext × List Char
  | [], out => (c, out)
  | v :: vs, out =>
    let p := WriteValueType c v out
    WriteValueTypeList p.1 vs p.2

/-- `Write(WriteContext&, const ValueTypeList&, string_view, Iterator)`:
wrap a nonempty list in `(name ...)`, write nothing when empty. -/
def WriteValueTypeListNamed (c : WriteContext) (values : List ValueType)
    (name : List Char) (out : List Char) : WriteContext × List Char :=
  if values.isEmpty then (c, out)
  else
    let p := WriteLparName c name out
    let p := WriteValueTypeList p.1 values p.2
    WriteRpar p.1 p.2

/-- `FunctionType`: parameter and result value types. -/
structure FunctionType where
  params : List ValueType
  results : List ValueType
deriving DecidableEq

def WriteFunctionType (c : WriteContext) (v : FunctionType) (out : List Char) :
    WriteContext × List Char :=
  let p := WriteValueTypeListNamed c v.params (chars "param") out
  WriteValueTypeListNamed p.1 v.results (chars "result") p.2

/-- `WriteTypeUse`: `(type <var>)` when the type use is present. -/
def WriteTypeUse (c : WriteContext) (v : Option Var) (out : List Char) :
    WriteContext × List Char :=
  match v with
  | some x =>
    let p := WriteLparName c (chars "type") out
    let p := WriteVar p.1 x p.2
    WriteRpar p.1 p.2
  | none => (c, out)

/-- `FunctionTypeUse`: optional type use plus the function type. -/
structure FunctionTypeUse where
  type_use : Option Var
  type : FunctionType
deriving DecidableEq

def WriteFunctionTypeUse (c : WriteContext) (v : FunctionTypeUse)
    (out : List Char) : WriteContext × List Char :=
  let p := WriteTypeUse c v.type_use out
  WriteFunctionType p.1 v.type p.2

/-- Reference types as distinguished by the writer. -/
inductive ReferenceType
  | Funcref
  | Externref
deriving DecidableEq

/-- Modelled from the spec: formatter of a `ReferenceType` (the src
test shows `concat(RT_Funcref) == "funcref"`). -/
def refTypeChars : ReferenceType → List Char
  | ReferenceType.Funcref => chars "funcref"
  | ReferenceType.Externref => chars "externref"

def WriteReferenceType (c : WriteContext) (v : ReferenceType)
    (out : List Char) : WriteContext × List Char :=
  WriteFormatStr c (refTypeChars v) out

/-- `ExternalKind` (base/types.h). -/
inductive ExternalKind
  | Function
  | Table
  | Memory
  | Global
  | Event
deriving DecidableEq

/-- Formatter of an `ExternalKind`; the src test pins
`concat(ExternalKind::Function) == "func"`. -/
def externalKindChars : ExternalKind → List Char
  | ExternalKind.Function => chars "func"
  | ExternalKind.Table => chars "table"
  | ExternalKind.Memory => chars "memory"
  | ExternalKind.Global => chars "global"
  | ExternalKind.Event => chars "event"

/-- `Write(WriteContext&, ExternalKind, Iterator)` = `WriteFormat`. -/
def WriteExternalKind (c : WriteContext) (v : ExternalKind) (out : List Char) :
    WriteContext × List Char :=
  WriteFormatStr c (externalKindChars v) out

/-- `BlockImmediate`: optional label plus a function type use. -/
structure BlockImmediate where
  label : Option (List Char)
  type : FunctionTypeUse
deriving DecidableEq

def WriteBlockImmediate (c : WriteContext) (v : BlockImmediate)
    (out : List Char) : WriteContext × List Char :=
  let p := WriteOptStr c v.label out
  WriteFunctionTypeUse p.1 v.type p.2

structure BrOnExnImmediate where
  target : Var
  event : Var
deriving DecidableEq

def WriteBrOnExn (c : WriteContext) (v : BrOnExnImmediate) (out : List Char) :
    WriteContext × List Char :=
  let p := WriteVar c v.target out
  WriteVar p.1 v.event p.2

structure BrTableImmediate where
  targets : List Var
  default_target : Var
deriving DecidableEq

def WriteBrTable (c : WriteContext) (v : BrTableImmediate) (out : List Char) :
    WriteContext × List Char :=
  let p := WriteVarList c v.targets out
  WriteVar p.1 v.default_target p.2

structure CallIndirectImmediate where
  table : Option Var
  type : FunctionTypeUse
deriving DecidableEq

def WriteCallIndirect (c : WriteContext) (v : CallIndirectImmediate)
    (out : List Char) : WriteContext × List Char :=
  let p := WriteOptVar c v.table out
  WriteFunctionTypeUse p.1 v.type p.2

structure CopyImmediate where
  dst : Option Var
  src : Option Var
deriving DecidableEq

def WriteCopy (c : WriteContext) (v : CopyImmediate) (out : List Char) :
    WriteContext × List Char :=
  let p := WriteOptVar c v.dst out
  WriteOptVar p.1 v.src p.2

structure InitImmediate where
  segment : Var
  dst : Option Var
deriving DecidableEq

/-- `Write` for `InitImmediate`: the dst (if any) is written first. -/
def WriteInit (c : WriteContext) (v : InitImmediate) (out : List Char) :
    WriteContext × List Char :=
  let p := WriteOptVar c v.dst out
  WriteVar p.1 v.segment p.2

/-- A v128 value as four u32 lanes (`value.as<u32x4>()`). -/
structure V128 where
  l0 : Nat
  l1 : Nat
  l2 : Nat
  l3 : Nat
deriving DecidableEq

/-- `Write(WriteContext&, const v128&, Iterator)`: the `i32x4` keyword
then the four lanes. -/
def WriteV128 (c : WriteContext) (v : V128) (out : List Char) :
    WriteContext × List Char :=
  let p := WriteStr c (chars "i32x4") out
  let p := WriteNat p.1 v.l0 p.2
  let p := WriteNat p.1 v.l1 p.2
  let p := WriteNat p.1 v.l2 p.2
  WriteNat p.1 v.l3 p.2

/-- `WriteRange` over integral lanes (shuffle immediate). -/
def WriteNatList (c : WriteContext) : List Nat → List Char →
    WriteContext × List Char
  | [], out => (c, out)
  | n :: ns, out =>
    let p := WriteNat c n out
    WriteNatList p.1 ns p.2

/-- Modelled from the spec: `FloatToStr` of text/numeric.h is not under
src/; float immediates are carried as raw bit patterns and their
rendering is kept abstract (no claim depends on it). -/
def floatToStr (b : Base) (bits : Nat) : List Char :=
  natToStr b bits

/-- Modelled from the spec: the opcode enumeration lives outside src/;
this is the fragment the text writer's control flow distinguishes
(block-opening opcodes, else/catch/end) plus representatives of each
immediate shape, with their canonical text names. -/
inductive Opcode
  | Block
  | Loop
  | If
  | Else
  | End
  | Try
  | Catch
  | Let
  | Br
  | BrIf
  | BrTable
  | BrOnExn
  | Return
  | Call
  | CallIndirect
  | Drop
  | Select
  | LocalGet
  | GlobalGet
  | I32Load
  | MemoryInit
  | TableInit
  | TableCopy
  | I32Const
  | I64Const
  | F32Const
  | F64Const
  | V128Const
  | I8X16Shuffle
  | I32X4ExtractLane
  | RefNull
  | RefFunc
  | Nop
deriving DecidableEq

def opcodeChars : Opcode → List Char
  | Opcode.Block => chars "block"
  | Opcode.Loop => chars "loop"
  | Opcode.If => chars "if"
  | Opcode.Else => chars "else"
  | Opcode.End => chars "end"
  | Opcode.Try => chars "try"
  | Opcode.Catch => chars "catch"
  | Opcode.Let => chars "let"
  | Opcode.Br => chars "br"
  | Opcode.BrIf => chars "br_if"
  | Opcode.BrTable => chars "br_table"
  | Opcode.BrOnExn => chars "br_on_exn"
  | Opcode.Return => chars "return"
  | Opcode.Call => chars "call"
  | Opcode.CallIndirect => chars "call_indirect"
  | Opcode.Drop => chars "drop"
  | Opcode.Select => chars "select"
  | Opcode.LocalGet => chars "local.get"
  | Opcode.GlobalGet => chars "global.get"
  | Opcode.I32Load => chars "i32.load"
  | Opcode.MemoryInit => chars "memory.init"
  | Opcode.TableInit => chars "table.init"
  | Opcode.TableCopy => chars "table.copy"
  | Opcode.I32Const => chars "i32.const"
  | Opcode.I64Const => chars "i64.const"
  | Opcode.F32Const => chars "f32.const"
  | Opcode.F64Const => chars "f64.const"
  | Opcode.V128Const => chars "v128.const"
  | Opcode.I8X16Shuffle => chars "i8x16.shuffle"
  | Opcode.I32X4ExtractLane => chars "i32x4.extract_lane"
  | Opcode.RefNull => chars "ref.null"
  | Opcode.RefFunc => chars "ref.func"
  | Opcode.Nop => chars "nop"

/-- The instruction immediate: the eighteen alternatives of the
`value.immediate.index()` switch in write.h (cases 0-17). -/
inductive Immediate
  | monostate
  | s32 (v : Int)
  | s64 (v : Int)
  | f32 (bits : Nat)
  | f64 (bits : Nat)
  | v128 (v : V128)
  | var (v : Var)
  | block (v : BlockImmediate)
  | brOnExn (v : BrOnExnImmediate)
  | brTable (v : BrTableImmediate)
  | callIndirect (v : CallIndirectImmediate)
  | copy (v : CopyImmediate)
  | init (v : InitImmediate)
  | memArg (v : MemArgImmediate)
  | refType (v : ReferenceType)
  | select (v : List ValueType)
  | shuffle (v : List Nat)
  | simdLane (v : Nat)
deriving DecidableEq

/-- `holds_alternative<At<BlockImmediate>>(value.immediate)`. -/
def isBlockImmediate : Immediate → Bool
  | Immediate.block _ => true
  | _ => false

structure Instruction where
  opcode : Opcode
  immediate : Immediate
deriving DecidableEq

/-- `Write(WriteContext&, const Instruction&, Iterator)` (write.h lines
344-422): the opcode token, then the immediate if any (case 0,
"monostate", intentionally writes nothing). -/
def WriteInstruction (c : WriteContext) (v : Instruction) (out : List Char) :
    WriteContext × List Char :=
  let p := WriteFormatStr c (opcodeChars v.opcode) out
  match v.immediate with
  | Immediate.monostate => p
  | Immediate.s32 n => WriteInt p.1 n p.2
  | Immediate.s64 n => WriteInt p.1 n p.2
  | Immediate.f32 bits => WriteStr p.1 (floatToStr (p.1).base bits) p.2
  | Immediate.f64 bits => WriteStr p.1 (floatToStr (p.1).base bits) p.2
  | Immediate.v128 w => WriteV128 p.1 w p.2
  | Immediate.var w => WriteVar p.1 w p.2
  | Immediate.block w => WriteBlockImmediate p.1 w p.2
  | Immediate.brOnExn w => WriteBrOnExn p.1 w p.2
  | Immediate.brTable w => WriteBrTable p.1 w p.2
  | Immediate.callIndirect w => WriteCallIndirect p.1 w p.2
  | Immediate.copy w => WriteCopy p.1 w p.2
  | Immediate.init w => WriteInit p.1 w p.2
  | Immediate.memArg w => WriteMemArg p.1 w p.2
  | Immediate.refType w => WriteReferenceType p.1 w p.2
  | Immediate.select w => WriteValueTypeList p.1 w p.2
  | Immediate.shuffle w => WriteNatList p.1 w p.2
  | Immediate.simdLane w => WriteNat p.1 w p.2

/-- `Write` for an `InstructionList` (`WriteVector`). -/
def WriteInstructionList (c : WriteContext) : List Instruction → List Char →
    WriteContext × List Char
  | [], out => (c, out)
  | v :: vs, out =>
    let p := WriteInstruction c v out
    WriteInstructionList p.1 vs p.2

/-- The body of the `WriteWithNewlines` loop (write.h lines 435-450):
dedent and pend a newline before `end`/`else`/`catch`, write the
instruction, indent after a block immediate or `else`/`catch`, then
pend a newline. -/
def WriteWithNewlinesStep (c : WriteContext) (v : Instruction)
    (out : List Char) : WriteContext × List Char :=
  let c1 :=
    if v.opcode = Opcode.End ∨ v.opcode = Opcode.Else ∨ v.opcode = Opcode.Catch
    then (c.Dedent).Newline else c
  let p := WriteInstruction c1 v out
  let c2 :=
    if isBlockImmediate v.immediate = true ∨ v.opcode = Opcode.Else
        ∨ v.opcode = Opcode.Catch
    then (p.1).Indent else p.1
  (c2.Newline, p.2)

/-- `WriteWithNewlines` (write.h lines 431-452). -/
def WriteWithNewlines (c : WriteContext) : List Instruction → List Char →
    WriteContext × List Char
  | [], out => (c, out)
  | v :: rest, out =>
    let p := WriteWithNewlinesStep c v out
    WriteWithNewlines p.1 rest p.2

/-- Segment types (base/types.h). -/
inductive SegmentType
  | Active
  | Passive
  | Declared
deriving DecidableEq

structure ConstantExpression where
  instructions : List Instruction
deriving DecidableEq

def WriteConstantExpression (c : WriteContext) (v : ConstantExpression)
    (out : List Char) : WriteContext × List Char :=
  WriteInstructionList c v.instructions out

structure ElementExpression where
  instructions : List Instruction
deriving DecidableEq

/-- The inner loop of the `ElementExpressionList` writer: every
instruction of one expression is wrapped in parens, with a space after. -/
def WriteElemExprInstrs (c : WriteContext) : List Instruction → List Char →
    WriteContext × List Char
  | [], out => (c, out)
  | i :: rest, out =>
    let p := WriteLpar c out
    let p := WriteInstruction p.1 i p.2
    let p := WriteRpar p.1 p.2
    WriteElemExprInstrs ((p.1).Space) rest p.2

/-- `Write(WriteContext&, const ElementExpressionList&, Iterator)`. -/
def WriteElementExpressionList (c : WriteContext) :
    List ElementExpression → List Char → WriteContext × List Char
  | [], out => (c, out)
  | e :: rest, out =>
    let p := WriteElemExprInstrs c e.instructions out
    WriteElementExpressionList p.1 rest p.2

structure ElementListWithVars where
  kind : ExternalKind
  list : List Var
deriving DecidableEq

structure ElementListWithExpressions where
  elemtype : ReferenceType
  list : List ElementExpression
deriving DecidableEq

def WriteElementListWithVars (c : WriteContext) (v : ElementListWithVars)
    (out : List Char) : WriteContext × List Char :=
  let p := WriteExternalKind c v.kind out
  WriteVarList p.1 v.list p.2

def WriteElementListWithExpressions (c : WriteContext)
    (v : ElementListWithExpressions) (out : List Char) :
    WriteContext × List Char :=
  let p := WriteReferenceType c v.elemtype out
  WriteElementExpressionList p.1 v.list p.2

inductive ElementList
  | withVars (v : ElementListWithVars)
  | withExprs (e : ElementListWithExpressions)
deriving DecidableEq

def WriteElementList (c : WriteContext) (v : ElementList) (out : List Char) :
    WriteContext × List Char :=
  match v with
  | ElementList.withVars ev => WriteElementListWithVars c ev out
  | ElementList.withExprs ee => WriteElementListWithExpressions c ee out

/-- `ElementSegment` (text/types.h shape used by the writer). -/
structure ElementSegment where
  name : Option (List Char)
  type : SegmentType
  table : Option Var
  offset : Option ConstantExpression
  elements : ElementList
deriving DecidableEq

/-- The shared prefix of the active-segment case of the element-segment
writer: `(elem`, the bind var, the table use, and the offset. -/
def WriteElemSegActivePrefix (c : WriteContext) (name : Option (List Char))
    (table : Option Var) (offset : Option ConstantExpression)
    (out : List Char) : WriteContext × List Char :=
  let p := WriteLparName c (chars "elem") out
  let p := WriteOptStr p.1 name p.2
  let p :=
    match table with
    | some t =>
      let q := WriteLparName p.1 (chars "table") p.2
      let q := WriteVar q.1 t q.2
      WriteRpar q.1 q.2
    | none => p
  match offset with
  | some off =>
    let q := WriteLparName p.1 (chars "offset") p.2
    let q := WriteConstantExpression q.1 off q.2
    WriteRpar q.1 q.2
  | none => p

/-- `Write(WriteContext&, const ElementSegment&, Iterator)` (write.h
lines 848-895).  In the active var-list form the external kind is
written only when `kind != Function || table || name`. -/
def WriteElementSegment (c : WriteContext) (v : ElementSegment)
    (out : List Char) : WriteContext × List Char :=
  match v.type with
  | SegmentType.Active =>
    let p := WriteElemSegActivePrefix c v.name v.table v.offset out
    (match v.elements with
     | ElementList.withVars ev =>
       let p :=
         if ev.kind ≠ ExternalKind.Function ∨ v.table.isSome ∨ v.name.isSome
         then WriteExternalKind p.1 ev.kind p.2 else p
       let p := WriteVarList p.1 ev.list p.2
       WriteRpar p.1 p.2
     | ElementList.withExprs ee =>
       let p := WriteElementListWithExpressions p.1 ee p.2
       WriteRpar p.1 p.2)
  | SegmentType.Passive =>
    let p := WriteLparName c (chars "elem") out
    let p := WriteOptStr p.1 v.name p.2
    let p := WriteElementList p.1 v.elements p.2
    WriteRpar p.1 p.2
  | SegmentType.Declared =>
    let p := WriteLparName c (chars "elem") out
    let p := WriteOptStr p.1 v.name p.2
    let p := WriteStr p.1 (chars "declare") p.2
    let p := WriteElementList p.1 v.elements p.2
    WriteRpar p.1 p.2

/-- Following the claim's words: the active var-list form with the kind
keyword omitted unconditionally. -/
def WriteElementSegmentNoKind (c : WriteContext) (name : Option (List Char))
    (table : Option Var) (offset : Option ConstantExpression)
    (list : List Var) (out : List Char) : WriteContext × List Char :=
  let p := WriteElemSegActivePrefix c name table offset out
  let p := WriteVarList p.1 list p.2
  WriteRpar p.1 p.2

/-- Following the claim's words: the active var-list form with the kind
keyword written unconditionally before the list. -/
def WriteElementSegmentWithKind (c : WriteContext) (name : Option (List Char))
    (table : Option Var) (offset : Option ConstantExpression)
    (kind : ExternalKind) (list : List Var) (out : List Char) :
    WriteContext × List Char :=
  let p := WriteElemSegActivePrefix c name table offset out
  let p := WriteExternalKind p.1 kind p.2
  let p := WriteVarList p.1 list p.2
  WriteRpar p.1 p.2

/-- `Limits`: min, optional max, shared flag. -/
structure Limits where
  min : Nat
  max : Option Nat
  shared : Bool
deriving DecidableEq

/-- `Write(WriteContext&, const Limits&, Iterator)`. -/
def WriteLimits (c : WriteContext) (v : Limits) (out : List Char) :
    WriteContext × List Char :=
  let p := WriteNat c v.min out
  let p :=
    match v.max with
    | some m => WriteNat p.1 m p.2
    | none => p
  if v.shared then WriteStr p.1 (chars "shared") p.2 else p

structure TableType where
  limits : Limits
  elemtype : ReferenceType
deriving DecidableEq

/-- `Write(WriteContext&, const TableType&, Iterator)`: the limits then
the element type. -/
def WriteTableType (c : WriteContext) (v : TableType) (out : List Char) :
    WriteContext × List Char :=
  let p := WriteLimits c v.limits out
  WriteFormatStr p.1 (refTypeChars v.elemtype) p.2

structure TableDesc where
  name : Option (List Char)
  type : TableType
deriving DecidableEq

structure InlineImport where
  module : List Char
  name : List Char
deriving DecidableEq

def WriteInlineImport (c : WriteContext) (v : InlineImport) (out : List Char) :
    WriteContext × List Char :=
  let p := WriteLparName c (chars "import") out
  let p := WriteStr p.1 v.module p.2
  let p := WriteStr p.1 v.name p.2
  WriteRpar p.1 p.2

structure InlineExport where
  name : List Char
deriving DecidableEq

def WriteInlineExport (c : WriteContext) (v : InlineExport) (out : List Char) :
    WriteContext × List Char :=
  let p := WriteLparName c (chars "export") out
  let p := WriteStr p.1 v.name p.2
  WriteRpar p.1 p.2

def WriteInlineExportList (c : WriteContext) : List InlineExport →
    List Char → WriteContext × List Char
  | [], out => (c, out)
  | e :: es, out =>
    let p := WriteInlineExport c e out
    WriteInlineExportList p.1 es p.2

/-- A text-format table: descriptor, inline exports, an optional
inline import (field `import` in the source), and an optional inline
element list. -/
structure Table where
  desc : TableDesc
  exports : List InlineExport
  import_ : Option InlineImport
  elements : Option ElementList
deriving DecidableEq

/-- `Write(WriteContext&, const Table&, Iterator)` (write.h lines
736-767): an imported table writes the import then its type; a table
with inline elements writes only the element type and `(elem ...)`
with the bare list (the limits are implicit in the list length);
otherwise the table type (limits then element type) is written. -/
def WriteTable (c : WriteContext) (v : Table) (out : List Char) :
    WriteContext × List Char :=
  let p := WriteLparName c (chars "table") out
  let p := WriteOptStr p.1 v.desc.name p.2
  let p := WriteInlineExportList p.1 v.exports p.2
  let p :=
    match v.import_ with
    | some imp =>
      let q := WriteInlineImport p.1 imp p.2
      WriteTableType q.1 v.desc.type q.2
    | none =>
      match v.elements with
      | some el =>
        let q := WriteFormatStr p.1 (refTypeChars v.desc.type.elemtype) p.2
        let q := WriteLparName q.1 (chars "elem") q.2
        let q :=
          match el with
          | ElementList.withVars ev => WriteVarList q.1 ev.list q.2
          | ElementList.withExprs ee => WriteElementExpressionList q.1 ee.list q.2
        WriteRpar q.1 q.2
      | none => WriteTableType p.1 v.desc.type p.2
  WriteRpar p.1 p.2

/-- The characters a single `Var` writes (proof-side description of
`WriteVar`'s output). -/
def varChars (b : Base) : Var → List Char
  | Var.idx n => natToStr b n
  | Var.name s => s

/-- The characters a var list writes, given the separator pending when
the first var is written (proof-side description of `WriteVarList`). -/
def vlChars (b : Base) : List Char → List Var → List Char
  | _, [] => []
  | sep, v :: vs => sep ++ varChars b v ++ vlChars b (chars " ") vs

/-- C10: `Indent` appends two spaces to the indent, `Dedent` removes the
last two characters, neither touches the separator or the base, and
`Dedent` undoes `Indent` exactly. -/
theorem indent_dedent_roundtrip :
    ∀ c : WriteContext,
      (c.Indent).Dedent = c
      ∧ (c.Indent).indent = c.indent ++ chars "  "
      ∧ (c.Indent).separator = c.separator
      ∧ (c.Indent).base = c.base
      ∧ (c.Dedent).indent = c.indent.take (c.indent.length - 2)
      ∧ (c.Dedent).separator = c.separator
      ∧ (c.Dedent).base = c.base := by
  intro c
  refine ⟨?_, rfl, rfl, rfl, rfl, rfl, rfl⟩
  cases c with
  | mk s i b =>
    show (⟨s, (i ++ chars "  ").take ((i ++ chars "  ").length - 2), b⟩ :
        WriteContext) = ⟨s, i, b⟩
    have hlen : (i ++ chars "  ").length - 2 = i.length := by
      simp [chars]
    rw [hlen]
    have : (i ++ chars "  ").take i.length = i := List.take_left i (chars "  ")
    rw [this]

/-- C3: every token writer flushes the pending separator before the
token and sets the separator to a single space afterwards; `WriteLpar`
flushes the separator before `(` and leaves it cleared, so no space can
follow `(`; `WriteRpar` clears the pending separator before writing
`)`, so `)` is never preceded by a space. -/
theorem token_separator_discipline :
    ∀ (c : WriteContext) (v out : List Char),
      WriteStr c v out =
        (⟨chars " ", c.indent, c.base⟩, out ++ c.separator ++ v)
      ∧ WriteFormatStr c v out =
        (⟨chars " ", c.indent, c.base⟩, out ++ c.separator ++ v)
      ∧ WriteLpar c out =
        (⟨[], c.indent, c.base⟩, out ++ c.separator ++ chars "(")
      ∧ WriteRpar c out =
        (⟨chars " ", c.indent, c.base⟩, out ++ chars ")") := by
  intro c v out
  refine ⟨?_, ?_, ?_, ?_⟩ <;>
    simp [WriteStr, WriteFormatStr, WriteLpar, WriteRpar, WriteSeparator,
      WriteRaw, WriteContext.ClearSeparator, WriteContext.Space]

/-- C5: for a `MemArgImmediate`, `offset=` is immediately concatenated
with the offset numeral (the separator is cleared in between), likewise
`align=` with the align numeral, and the offset attribute is written
before the align attribute. -/
theorem memarg_offset_align_concatenation :
    ∀ (c : WriteContext) (a o : Nat) (out : List Char),
      WriteMemArg c ⟨some a, some o⟩ out =
        (⟨chars " ", c.indent, c.base⟩,
          out ++ c.separator ++ chars "offset=" ++ natToStr c.base o
            ++ chars " " ++ chars "align=" ++ natToStr c.base a)
      ∧ WriteMemArg c ⟨none, some o⟩ out =
        (⟨chars " ", c.indent, c.base⟩,
          out ++ c.separator ++ chars "offset=" ++ natToStr c.base o)
      ∧ WriteMemArg c ⟨some a, none⟩ out =
        (⟨chars " ", c.indent, c.base⟩,
          out ++ c.separator ++ chars "align=" ++ natToStr c.base a) := by
  intro c a o out
  refine ⟨?_, ?_, ?_⟩ <;>
    simp [WriteMemArg, WriteNat, WriteStr, WriteSeparator, WriteRaw,
      WriteContext.ClearSeparator, WriteContext.Space]

theorem getOrder_eq (id : SectionId) : getOrder id = some (canonicalPos id) := by
  cases id <;> rfl

theorem runSections_strict :
    ∀ (l : List Section) (last : Option SectionId),
      runSections last l = true →
      List.Pairwise (fun a b => canonicalPos a < canonicalPos b) (knownIds l)
      ∧ (∀ prev, last = some prev →
          ∀ id ∈ knownIds l, canonicalPos prev < canonicalPos id) := by
  intro l
  induction l with
  | nil =>
    intro last _
    exact ⟨List.Pairwise.nil, fun prev _ id h => absurd h (List.not_mem_nil id)⟩
  | cons s rest ih =>
    intro last hrun
    cases s with
    | custom name =>
      have hrun' : runSections last rest = true := by
        simpa [runSections, OnSection] using hrun
      exact ⟨(ih last hrun').1, fun prev hp id hid =>
        (ih last hrun').2 prev hp id (by simpa [knownIds] using hid)⟩
    | known id =>
      cases last with
      | none =>
        have hrun' : runSections (some id) rest = true := by
          simpa [runSections, OnSection] using hrun
        obtain ⟨hp, hlt⟩ := ih (some id) hrun'
        refine ⟨List.Pairwise.cons (fun b hb => hlt id rfl b hb) hp, ?_⟩
        intro prev hprev
        cases hprev
      | some prev =>
        cases hog : optGE (getOrder prev) (getOrder id) with
        | true =>
          exfalso
          have : False := by
            have h := hrun
            simp [runSections, OnSection, hog] at h
          exact this
        | false =>
          have hlt_pi : canonicalPos prev < canonicalPos id := by
            rw [getOrder_eq, getOrder_eq] at hog
            simp [optGE] at hog
            omega
          have hrun' : runSections (some id) rest = true := by
            simpa [runSections, OnSection, hog] using hrun
          obtain ⟨hp, hlt⟩ := ih (some id) hrun'
          refine ⟨List.Pairwise.cons (fun b hb => hlt id rfl b hb) hp, ?_⟩
          intro prev' hprev' id' hid'
          cases hprev'
          rcases List.mem_cons.mp hid' with h | h
          · subst h; exact hlt_pi
          · exact Nat.lt_trans hlt_pi (hlt id rfl id' h)

/-- C1: custom sections are accepted anywhere without touching the
ordering state; a known section is accepted exactly when its canonical
position is strictly after the last seen known section's, so in any
run of `OnSection` with every result `Ok` the known sections appear in
strictly increasing canonical order; a violation emits
"Section out of order: <id> cannot occur after <previous id>" and
returns `Fail`. -/
theorem onSection_section_order :
    ∀ (l : List Section), runSections none l = true →
      List.Pairwise (fun a b => canonicalPos a < canonicalPos b) (knownIds l)
      ∧ (∀ (last : Option SectionId) (name : List Char),
          OnSection last (Section.custom name) = (VisitResult.Ok, last, []))
      ∧ (∀ prev id,
          (OnSection (some prev) (Section.known id)).1 = VisitResult.Ok
            ↔ canonicalPos prev < canonicalPos id)
      ∧ (∀ prev id, canonicalPos id ≤ canonicalPos prev →
          OnSection (some prev) (Section.known id) =
            (VisitResult.Fail, some prev,
              [chars "Section out of order: " ++ sectionIdStr id
                ++ chars " cannot occur after " ++ sectionIdStr prev
                ++ chars "\n"])) := by
  intro l hrun
  refine ⟨(runSections_strict l none hrun).1, fun last name => rfl, ?_, ?_⟩
  · intro prev id
    simp only [OnSection, getOrder_eq, optGE]
    constructor
    · intro h
      by_cases hle : canonicalPos id ≤ canonicalPos prev
      · simp [hle] at h
      · omega
    · intro h
      have hle : ¬ canonicalPos id ≤ canonicalPos prev := by omega
      simp [hle]
  · intro prev id hle
    simp [OnSection, getOrder_eq, optGE, hle, outOfOrderMsg]

theorem onSection_section_order_witness :
    List.Pairwise (fun a b => canonicalPos a < canonicalPos b)
      (knownIds [Section.known SectionId.Type',
        Section.custom (chars "name"), Section.known SectionId.Import]) :=
  (onSection_section_order _ (by decide)).1

/-- C9: a known section whose id equals the most recently seen known
section id is rejected (the comparison is `>=`, not `>`), and in every
run of `OnSection` in which every section is accepted, each known
section id occurs at most once. -/
theorem onSection_duplicate_rejected :
    ∀ (l : List Section), runSections none l = true →
      (knownIds l).Nodup
      ∧ (∀ id : SectionId, OnSection (some id) (Section.known id) =
          (VisitResult.Fail, some id, [outOfOrderMsg id id])) := by
  intro l hrun
  constructor
  · exact ((runSections_strict l none hrun).1).imp
      (fun hab he => by subst he; exact Nat.lt_irrefl _ hab)
  · intro id
    simp [OnSection, getOrder_eq, optGE]

theorem onSection_duplicate_rejected_witness :
    (knownIds [Section.known SectionId.Table,
      Section.known SectionId.Memory]).Nodup :=
  (onSection_duplicate_rejected _ (by decide)).1

theorem validateAll_stops {σ α : Type} (f : α → σ → Bool × σ) :
    ∀ (xs : List α) (x : α) (ys : List α) (s0 s1 : σ),
      validateAll f xs s0 = (true, s1) → (f x s1).1 = false →
      validateAll f (xs ++ x :: ys) s0 = (false, (f x s1).2) := by
  intro xs
  induction xs with
  | nil =>
    intro x ys s0 s1 h1 h2
    have hs : s0 = s1 := congrArg Prod.snd h1
    subst hs
    simp [validateAll, h2]
  | cons y xs ih =>
    intro x ys s0 s1 h1 h2
    simp only [validateAll] at h1
    cases hy : (f y s0).1 with
    | false =>
      rw [hy] at h1
      simp at h1
    | true =>
      rw [hy] at h1
      simp at h1
      simpa [validateAll, hy] using ih x ys (f y s0).2 s1 h1 h2

theorem onCode_stops_at_first_invalid_local :
    OnCode (fun (n : Nat) => (true, n)) (fun (_ : Unit) (n : Nat) => (false, n + 1))
        (fun (_ : Unit) (n : Nat) => (true, n)) [(), ()] [] 0 =
      (VisitResult.Fail, 1)
    ∧ ([(), ()] : List Unit).length = 2 := ⟨rfl, rfl⟩

/-- C2 (amended): `OnCode` succeeds exactly when `BeginCode`, every
locals declaration and every body instruction validate; it returns
`Fail` at the first failing entry, and no entry after the first
failure is validated (the result does not depend on the remaining
entries); `FailUnless` maps a failed validation to `Fail`. -/
theorem onCode_fail_fast :
    ∀ {σ L I : Type} (bc : σ → Bool × σ) (vL : L → σ → Bool × σ)
      (vI : I → σ → Bool × σ) (locals : List L) (body : List I) (s : σ),
      ((OnCode bc vL vI locals body s).1 = VisitResult.Ok ↔
        (bc s).1 = true ∧ (validateAll vL locals (bc s).2).1 = true
          ∧ (validateAll vI body (validateAll vL locals (bc s).2).2).1 = true)
      ∧ (∀ (xs : List L) (x : L) (ys : List L) (s0 s1 : σ),
          validateAll vL xs s0 = (true, s1) → (vL x s1).1 = false →
          validateAll vL (xs ++ x :: ys) s0 = (false, (vL x s1).2))
      ∧ (∀ b : Bool, FailUnless b = VisitResult.Ok ↔ b = true) := by
  intro σ L I bc vL vI locals body s
  refine ⟨?_, validateAll_stops vL, ?_⟩
  · simp only [OnCode]
    cases h0 : (bc s).1 with
    | false => simp [h0]
    | true =>
      cases h1 : (validateAll vL locals (bc s).2).1 with
      | false => simp [h0, h1]
      | true =>
        cases h2 : (validateAll vI body (validateAll vL locals (bc s).2).2).1 with
        | false => simp [h0, h1, h2]
        | true => simp [h0, h1, h2]
  · intro b
    cases b <;> simp [FailUnless]

theorem onCode_fail_fast_witness :
    validateAll (fun (_ : Unit) (n : Nat) => (decide (n = 0), n + 1))
        ([()] ++ () :: [(), ()]) 0 = (false, 2) :=
  (onCode_fail_fast (fun (n : Nat) => (true, n))
      (fun (_ : Unit) (n : Nat) => (decide (n = 0), n + 1))
      (fun (_ : Unit) (n : Nat) => (true, n)) [] [] 0).2.1
    [()] () [(), ()] 0 1 (by decide) (by decide)

theorem mainLoop_fst :
    ∀ (files : List (Option Bool)) (ok : Bool),
      (mainLoop files ok).1 = (ok && files.all (fun f => f == some true)) := by
  intro files
  induction files with
  | nil => intro ok; simp [mainLoop]
  | cons f rest ih =>
    intro ok
    cases f with
    | none => simp [mainLoop, ih]
    | some b =>
      cases b <;> cases ok <;> simp [mainLoop, ih]

theorem mainLoop_snd :
    ∀ (files : List (Option Bool)) (ok : Bool), (mainLoop files ok).2 = files := by
  intro files
  induction files with
  | nil => intro ok; rfl
  | cons f rest ih => intro ok; simp [mainLoop, ih]

theorem main_empty_filenames :
    Main [] = 1
    ∧ (([] : List (Option Bool)).all (fun f => f == some true)) = true :=
  ⟨rfl, rfl⟩

/-- C8 (amended): given at least one filename, `Main` returns 0 exactly
when every named file was read and validated successfully, and 1
otherwise; it processes every file even after a per-file failure.
(With no filenames it prints help and exits 1.) -/
theorem main_exit_code :
    ∀ files : List (Option Bool), files ≠ [] →
      (Main files = 0 ↔ files.all (fun f => f == some true) = true)
      ∧ (Main files = 0 ∨ Main files = 1)
      ∧ (mainLoop files true).2 = files := by
  intro files hne
  have hempty : files.isEmpty = false := by
    cases files with
    | nil => exact absurd rfl hne
    | cons f rest => rfl
  refine ⟨?_, ?_, mainLoop_snd files true⟩
  · have hmain : Main files = if (mainLoop files true).1 then 0 else 1 := by
      simp [Main, hempty]
    rw [hmain, mainLoop_fst]
    cases hall : files.all (fun f => f == some true) <;> simp
  · simp only [Main]
    split
    · exact Or.inr rfl
    · split
      · exact Or.inl rfl
      · exact Or.inr rfl

theorem main_exit_code_witness :
    (Main [some true, none] = 0
      ↔ ([some true, none] : List (Option Bool)).all (fun f => f == some true) = true)
    ∧ (Main [some true, none] = 0 ∨ Main [some true, none] = 1)
    ∧ (mainLoop [some true, none] true).2 = [some true, none] :=
  main_exit_code [some true, none] (by decide)

@[simp] theorem ClearSeparator_separator (c : WriteContext) :
    (c.ClearSeparator).separator = [] := rfl

@[simp] theorem ClearSeparator_indent (c : WriteContext) :
    (c.ClearSeparator).indent = c.indent := rfl

@[simp] theorem ClearSeparator_base (c : WriteContext) :
    (c.ClearSeparator).base = c.base := rfl

@[simp] theorem Space_separator (c : WriteContext) :
    (c.Space).separator = chars " " := rfl

@[simp] theorem Space_indent (c : WriteContext) :
    (c.Space).indent = c.indent := rfl

@[simp] theorem Space_base (c : WriteContext) :
    (c.Space).base = c.base := rfl

@[simp] theorem Newline_separator (c : WriteContext) :
    (c.Newline).separator = c.indent := rfl

@[simp] theorem Newline_indent (c : WriteContext) :
    (c.Newline).indent = c.indent := rfl

@[simp] theorem Newline_base (c : WriteContext) :
    (c.Newline).base = c.base := rfl

@[simp] theorem Indent_indent (c : WriteContext) :
    (c.Indent).indent = c.indent ++ chars "  " := rfl

@[simp] theorem Indent_separator (c : WriteContext) :
    (c.Indent).separator = c.separator := rfl

@[simp] theorem Indent_base (c : WriteContext) :
    (c.Indent).base = c.base := rfl

@[simp] theorem Dedent_indent (c : WriteContext) :
    (c.Dedent).indent = c.indent.take (c.indent.length - 2) := rfl

@[simp] theorem Dedent_separator (c : WriteContext) :
    (c.Dedent).separator = c.separator := rfl

@[simp] theorem Dedent_base (c : WriteContext) :
    (c.Dedent).base = c.base := rfl

@[simp] theorem WriteRaw_ctx (c : WriteContext) (v out : List Char) :
    (WriteRaw c v out).1 = c := rfl

@[simp] theorem WriteRaw_out (c : WriteContext) (v out : List Char) :
    (WriteRaw c v out).2 = out ++ v := rfl

@[simp] theorem WriteSeparator_ctx (c : WriteContext) (out : List Char) :
    (WriteSeparator c out).1 = c.ClearSeparator := rfl

@[simp] theorem WriteSeparator_out (c : WriteContext) (out : List Char) :
    (WriteSeparator c out).2 = out ++ c.separator := rfl

@[simp] theorem WriteStr_ctx (c : WriteContext) (v out : List Char) :
    (WriteStr c v out).1 = ⟨chars " ", c.indent, c.base⟩ := rfl

@[simp] theorem WriteStr_out (c : WriteContext) (v out : List Char) :
    (WriteStr c v out).2 = out ++ c.separator ++ v := by
  simp [WriteStr, List.append_assoc]

@[simp] theorem WriteFormatStr_ctx (c : WriteContext) (s out : List Char) :
    (WriteFormatStr c s out).1 = ⟨chars " ", c.indent, c.base⟩ := rfl

@[simp] theorem WriteFormatStr_out (c : WriteContext) (s out : List Char) :
    (WriteFormatStr c s out).2 = out ++ c.separator ++ s := by
  simp [WriteFormatStr, List.append_assoc]

@[simp] theorem WriteLpar_ctx (c : WriteContext) (out : List Char) :
    (WriteLpar c out).1 = ⟨[], c.indent, c.base⟩ := rfl

@[simp] theorem WriteLpar_out (c : WriteContext) (out : List Char) :
    (WriteLpar c out).2 = out ++ c.separator ++ chars "(" := by
  simp [WriteLpar, List.append_assoc]

@[simp] theorem WriteLparName_ctx (c : WriteContext) (name out : List Char) :
    (WriteLparName c name out).1 = ⟨chars " ", c.indent, c.base⟩ := rfl

@[simp] theorem WriteLparName_out (c : WriteContext) (name out : List Char) :
    (WriteLparName c name out).2 = out ++ c.separator ++ chars "(" ++ name := by
  simp [WriteLparName, List.append_assoc]

@[simp] theorem WriteRpar_ctx (c : WriteContext) (out : List Char) :
    (WriteRpar c out).1 = ⟨chars " ", c.indent, c.base⟩ := rfl

@[simp] theorem WriteRpar_out (c : WriteContext) (out : List Char) :
    (WriteRpar c out).2 = out ++ chars ")" := rfl

@[simp] theorem WriteNat_ctx (c : WriteContext) (n : Nat) (out : List Char) :
    (WriteNat c n out).1 = ⟨chars " ", c.indent, c.base⟩ := rfl

@[simp] theorem WriteNat_out (c : WriteContext) (n : Nat) (out : List Char) :
    (WriteNat c n out).2 = out ++ c.separator ++ natToStr c.base n := by
  simp [WriteNat]

@[simp] theorem WriteInt_ctx (c : WriteContext) (i : Int) (out : List Char) :
    (WriteInt c i out).1 = ⟨chars " ", c.indent, c.base⟩ := rfl

@[simp] theorem WriteVar_ctx (c : WriteContext) (v : Var) (out : List Char) :
    (WriteVar c v out).1 = ⟨chars " ", c.indent, c.base⟩ := by
  cases v <;> rfl

@[simp] theorem WriteVar_out (c : WriteContext) (v : Var) (out : List Char) :
    (WriteVar c v out).2 = out ++ c.separator ++ varChars c.base v := by
  cases v <;> simp [WriteVar, varChars]

@[simp] theorem WriteOptVar_indent (c : WriteContext) (v : Option Var)
    (out : List Char) : (WriteOptVar c v out).1.indent = c.indent := by
  cases v <;> simp [WriteOptVar]

@[simp] theorem WriteOptVar_base (c : WriteContext) (v : Option Var)
    (out : List Char) : (WriteOptVar c v out).1.base = c.base := by
  cases v <;> simp [WriteOptVar]

@[simp] theorem WriteOptStr_indent (c : WriteContext) (v : Option (List Char))
    (out : List Char) : (WriteOptStr c v out).1.indent = c.indent := by
  cases v <;> simp [WriteOptStr]

@[simp] theorem WriteOptStr_base (c : WriteContext) (v : Option (List Char))
    (out : List Char) : (WriteOptStr c v out).1.base = c.base := by
  cases v <;> simp [WriteOptStr]

@[simp] theorem WriteVarList_indent :
    ∀ (l : List Var) (c : WriteContext) (out : List Char),
      (WriteVarList c l out).1.indent = c.indent := by
  intro l
  induction l with
  | nil => intro c out; rfl
  | cons v vs ih => intro c out; simp [WriteVarList, ih]

@[simp] theorem WriteVarList_base :
    ∀ (l : List Var) (c : WriteContext) (out : List Char),
      (WriteVarList c l out).1.base = c.base := by
  intro l
  induction l with
  | nil => intro c out; rfl
  | cons v vs ih => intro c out; simp [WriteVarList, ih]

@[simp] theorem WriteValueType_ctx (c : WriteContext) (v : ValueType)
    (out : List Char) :
    (WriteValueType c v out).1 = ⟨chars " ", c.indent, c.base⟩ := rfl

@[simp] theorem WriteValueTypeList_indent :
    ∀ (l : List ValueType) (c : WriteContext) (out : List Char),
      (WriteValueTypeList c l out).1.indent = c.indent := by
  intro l
  induction l with
  | nil => intro c out; rfl
  | cons v vs ih => intro c out; simp [WriteValueTypeList, ih]

@[simp] theorem WriteValueTypeList_base :
    ∀ (l : List ValueType) (c : WriteContext) (out : List Char),
      (WriteValueTypeList c l out).1.base = c.base := by
  intro l
  induction l with
  | nil => intro c out; rfl
  | cons v vs ih => intro c out; simp [WriteValueTypeList, ih]

@[simp] theorem WriteValueTypeListNamed_indent (c : WriteContext)
    (values : List ValueType) (name out : List Char) :
    (WriteValueTypeListNamed c values name out).1.indent = c.indent := by
  by_cases h : values.isEmpty <;> simp [WriteValueTypeListNamed, h]

@[simp] theorem WriteValueTypeListNamed_base (c : WriteContext)
    (values : List ValueType) (name out : List Char) :
    (WriteValueTypeListNamed c values name out).1.base = c.base := by
  by_cases h : values.isEmpty <;> simp [WriteValueTypeListNamed, h]

@[simp] theorem WriteFunctionType_indent (c : WriteContext)
    (v : FunctionType) (out : List Char) :
    (WriteFunctionType c v out).1.indent = c.indent := by
  simp [WriteFunctionType]

@[simp] theorem WriteFunctionType_base (c : WriteContext)
    (v : FunctionType) (out : List Char) :
    (WriteFunctionType c v out).1.base = c.base := by
  simp [WriteFunctionType]

@[simp] theorem WriteTypeUse_indent (c : WriteContext) (v : Option Var)
    (out : List Char) : (WriteTypeUse c v out).1.indent = c.indent := by
  cases v <;> simp [WriteTypeUse]

@[simp] theorem WriteTypeUse_base (c : WriteContext) (v : Option Var)
    (out : List Char) : (WriteTypeUse c v out).1.base = c.base := by
  cases v <;> simp [WriteTypeUse]

@[simp] theorem WriteFunctionTypeUse_indent (c : WriteContext)
    (v : FunctionTypeUse) (out : List Char) :
    (WriteFunctionTypeUse c v out).1.indent = c.indent := by
  simp [WriteFunctionTypeUse]

@[simp] theorem WriteFunctionTypeUse_base (c : WriteContext)
    (v : FunctionTypeUse) (out : List Char) :
    (WriteFunctionTypeUse c v out).1.base = c.base := by
  simp [WriteFunctionTypeUse]

@[simp] theorem WriteBlockImmediate_indent (c : WriteContext)
    (v : BlockImmediate) (out : List Char) :
    (WriteBlockImmediate c v out).1.indent = c.indent := by
  simp [WriteBlockImmediate]

@[simp] theorem WriteBlockImmediate_base (c : WriteContext)
    (v : BlockImmediate) (out : List Char) :
    (WriteBlockImmediate c v out).1.base = c.base := by
  simp [WriteBlockImmediate]

@[simp] theorem WriteBrOnExn_ctx (c : WriteContext) (v : BrOnExnImmediate)
    (out : List Char) :
    (WriteBrOnExn c v out).1 = ⟨chars " ", c.indent, c.base⟩ := by
  simp [WriteBrOnExn]

@[simp] theorem WriteBrTable_indent (c : WriteContext) (v : BrTableImmediate)
    (out : List Char) : (WriteBrTable c v out).1.indent = c.indent := by
  simp [WriteBrTable]

@[simp] theorem WriteBrTable_base (c : WriteContext) (v : BrTableImmediate)
    (out : List Char) : (WriteBrTable c v out).1.base = c.base := by
  simp [WriteBrTable]

@[simp] theorem WriteCallIndirect_indent (c : WriteContext)
    (v : CallIndirectImmediate) (out : List Char) :
    (WriteCallIndirect c v out).1.indent = c.indent := by
  simp [WriteCallIndirect]

@[simp] theorem WriteCallIndirect_base (c : WriteContext)
    (v : CallIndirectImmediate) (out : List Char) :
    (WriteCallIndirect c v out).1.base = c.base := by
  simp [WriteCallIndirect]

@[simp] theorem WriteCopy_indent (c : WriteContext) (v : CopyImmediate)
    (out : List Char) : (WriteCopy c v out).1.indent = c.indent := by
  simp [WriteCopy]

@[simp] theorem WriteCopy_base (c : WriteContext) (v : CopyImmediate)
    (out : List Char) : (WriteCopy c v out).1.base = c.base := by
  simp [WriteCopy]

@[simp] theorem WriteInit_indent (c : WriteContext) (v : InitImmediate)
    (out : List Char) : (WriteInit c v out).1.indent = c.indent := by
  simp [WriteInit]

@[simp] theorem WriteInit_base (c : WriteContext) (v : InitImmediate)
    (out : List Char) : (WriteInit c v out).1.base = c.base := by
  simp [WriteInit]

@[simp] theorem WriteMemArg_indent (c : WriteContext) (v : MemArgImmediate)
    (out : List Char) : (WriteMemArg c v out).1.indent = c.indent := by
  obtain ⟨a, o⟩ := v
  cases a <;> cases o <;> simp [WriteMemArg, WriteNat]

@[simp] theorem WriteMemArg_base (c : WriteContext) (v : MemArgImmediate)
    (out : List Char) : (WriteMemArg c v out).1.base = c.base := by
  obtain ⟨a, o⟩ := v
  cases a <;> cases o <;> simp [WriteMemArg, WriteNat]

@[simp] theorem WriteV128_ctx (c : WriteContext) (v : V128)
    (out : List Char) :
    (WriteV128 c v out).1 = ⟨chars " ", c.indent, c.base⟩ := by
  simp [WriteV128, WriteNat]

@[simp] theorem WriteNatList_indent :
    ∀ (l : List Nat) (c : WriteContext) (out : List Char),
      (WriteNatList c l out).1.indent = c.indent := by
  intro l
  induction l with
  | nil => intro c out; rfl
  | cons n ns ih => intro c out; simp [WriteNatList, ih]

@[simp] theorem WriteNatList_base :
    ∀ (l : List Nat) (c : WriteContext) (out : List Char),
      (WriteNatList c l out).1.base = c.base := by
  intro l
  induction l with
  | nil => intro c out; rfl
  | cons n ns ih => intro c out; simp [WriteNatList, ih]

@[simp] theorem WriteReferenceType_ctx (c : WriteContext)
    (v : ReferenceType) (out : List Char) :
    (WriteReferenceType c v out).1 = ⟨chars " ", c.indent, c.base⟩ := rfl

@[simp] theorem WriteExternalKind_ctx (c : WriteContext) (v : ExternalKind)
    (out : List Char) :
    (WriteExternalKind c v out).1 = ⟨chars " ", c.indent, c.base⟩ := rfl

@[simp] theorem WriteExternalKind_out (c : WriteContext) (v : ExternalKind)
    (out : List Char) :
    (WriteExternalKind c v out).2 = out ++ c.separator ++ externalKindChars v := by
  simp [WriteExternalKind]

@[simp] theorem WriteInstruction_indent (c : WriteContext) (v : Instruction)
    (out : List Char) : (WriteInstruction c v out).1.indent = c.indent := by
  obtain ⟨op, imm⟩ := v
  cases imm <;> simp [WriteInstruction, WriteInt]

@[simp] theorem WriteInstruction_base (c : WriteContext) (v : Instruction)
    (out : List Char) : (WriteInstruction c v out).1.base = c.base := by
  obtain ⟨op, imm⟩ := v
  cases imm <;> simp [WriteInstruction, WriteInt]

/-- C6: a non-imported table with an inline element list is written
without its limits — the output does not depend on the limits at all:
element type, then `(elem` with only the bare element list, then `)`;
the limits are written exactly in the other two cases (no inline
elements, or an inline import). -/
theorem table_inline_elements_omit_limits :
    ∀ (c : WriteContext) (name : Option (List Char))
      (exports : List InlineExport) (limits limits' : Limits)
      (et : ReferenceType) (el : ElementList) (imp : InlineImport)
      (out : List Char),
      WriteTable c ⟨⟨name, ⟨limits, et⟩⟩, exports, none, some el⟩ out =
        WriteTable c ⟨⟨name, ⟨limits', et⟩⟩, exports, none, some el⟩ out
      ∧ WriteTable c ⟨⟨name, ⟨limits, et⟩⟩, exports, none, some el⟩ out =
        (let p := WriteLparName c (chars "table") out
         let p := WriteOptStr p.1 name p.2
         let p := WriteInlineExportList p.1 exports p.2
         let p := WriteFormatStr p.1 (refTypeChars et) p.2
         let p := WriteLparName p.1 (chars "elem") p.2
         let p :=
           match el with
           | ElementList.withVars ev => WriteVarList p.1 ev.list p.2
           | ElementList.withExprs ee =>
             WriteElementExpressionList p.1 ee.list p.2
         let p := WriteRpar p.1 p.2
         WriteRpar p.1 p.2)
      ∧ WriteTable c ⟨⟨name, ⟨limits, et⟩⟩, exports, none, none⟩ out =
        (let p := WriteLparName c (chars "table") out
         let p := WriteOptStr p.1 name p.2
         let p := WriteInlineExportList p.1 exports p.2
         let p := WriteTableType p.1 ⟨limits, et⟩ p.2
         WriteRpar p.1 p.2)
      ∧ WriteTable c ⟨⟨name, ⟨limits, et⟩⟩, exports, some imp, some el⟩ out =
        (let p := WriteLparName c (chars "table") out
         let p := WriteOptStr p.1 name p.2
         let p := WriteInlineExportList p.1 exports p.2
         let p := WriteInlineImport p.1 imp p.2
         let p := WriteTableType p.1 ⟨limits, et⟩ p.2
         WriteRpar p.1 p.2) := by
  intro c name exports limits limits' et el imp out
  exact ⟨rfl, rfl, rfl, rfl⟩

/-- C7: in `WriteWithNewlines`, a newline (the indent) is the pending
separator after each instruction; indentation is raised after any
instruction carrying a block immediate (the block-opening instructions
`block`, `loop`, `if`, `try`, `let`) and after `else`/`catch`; it is
lowered before writing `end`, `else` and `catch` (the instruction is
written under the dedented context), with `end` lowering it on net and
`else`/`catch` restoring it afterwards. -/
theorem writeWithNewlines_indent_discipline :
    ∀ (c : WriteContext) (v : Instruction) (rest : List Instruction)
      (out : List Char),
      WriteWithNewlines c (v :: rest) out =
        WriteWithNewlines (WriteWithNewlinesStep c v out).1 rest
          (WriteWithNewlinesStep c v out).2
      ∧ (WriteWithNewlinesStep c v out).1.separator =
          (WriteWithNewlinesStep c v out).1.indent
      ∧ (∀ op bi,
          op ∈ [Opcode.Block, Opcode.Loop, Opcode.If, Opcode.Try, Opcode.Let] →
          (WriteWithNewlinesStep c ⟨op, Immediate.block bi⟩ out).1.indent =
            c.indent ++ chars "  ")
      ∧ (v.opcode = Opcode.End → isBlockImmediate v.immediate = false →
          (WriteWithNewlinesStep c v out).1.indent = (c.Dedent).indent
          ∧ (WriteWithNewlinesStep c v out).2 =
              (WriteInstruction ((c.Dedent).Newline) v out).2)
      ∧ ((v.opcode = Opcode.Else ∨ v.opcode = Opcode.Catch) →
          isBlockImmediate v.immediate = false →
          (WriteWithNewlinesStep c v out).1.indent =
            (c.Dedent).indent ++ chars "  "
          ∧ (WriteWithNewlinesStep c v out).2 =
              (WriteInstruction ((c.Dedent).Newline) v out).2) := by
  intro c v rest out
  refine ⟨rfl, rfl, ?_, ?_, ?_⟩
  · intro op bi hop
    fin_cases hop <;>
      simp [WriteWithNewlinesStep, isBlockImmediate]
  · intro h1 h2
    obtain ⟨op, imm⟩ := v
    simp only at h1 h2
    subst h1
    constructor
    · simp [WriteWithNewlinesStep, h2]
    · simp [WriteWithNewlinesStep, h2]
  · intro h1 h2
    obtain ⟨op, imm⟩ := v
    simp only at h1 h2
    rcases h1 with h1 | h1 <;> subst h1 <;>
      exact ⟨by simp [WriteWithNewlinesStep, h2], by simp [WriteWithNewlinesStep, h2]⟩

theorem writeWithNewlines_indent_discipline_witness :
    (WriteWithNewlinesStep initContext ⟨Opcode.End, Immediate.monostate⟩
        []).1.indent = (initContext.Dedent).indent
    ∧ (WriteWithNewlinesStep initContext ⟨Opcode.End, Immediate.monostate⟩
        []).2 =
      (WriteInstruction ((initContext.Dedent).Newline)
        ⟨Opcode.End, Immediate.monostate⟩ []).2 :=
  (writeWithNewlines_indent_discipline initContext
    ⟨Opcode.End, Immediate.monostate⟩ [] []).2.2.2.1 rfl rfl

theorem WriteVarList_out :
    ∀ (l : List Var) (c : WriteContext) (out : List Char),
      (WriteVarList c l out).2 = out ++ vlChars c.base c.separator l := by
  intro l
  induction l with
  | nil => intro c out; simp [WriteVarList, vlChars]
  | cons v vs ih =>
    intro c out
    simp [WriteVarList, ih, vlChars, List.append_assoc]

theorem kindChars_len : ∀ k : ExternalKind, 1 ≤ (externalKindChars k).length := by
  intro k
  cases k <;> decide

theorem elem_kind_tail_ne :
    ∀ (c : WriteContext) (kind : ExternalKind) (list : List Var)
      (out : List Char),
      (let p := WriteExternalKind c kind out
       let p := WriteVarList p.1 list p.2
       WriteRpar p.1 p.2).2 ≠
      (let p := WriteVarList c list out
       WriteRpar p.1 p.2).2 := by
  intro c kind list out h
  have hl := congrArg List.length h
  simp only [WriteRpar_out, WriteVarList_out, WriteExternalKind_out,
    WriteExternalKind_ctx] at hl
  have hk := kindChars_len kind
  have hsp : (chars " ").length = 1 := rfl
  cases list with
  | nil =>
    simp [vlChars, List.length_append] at hl
    omega
  | cons v vs =>
    simp only [vlChars, List.length_append, hsp] at hl
    omega

/-- C4: in the active var-list form of an element segment, the
external-kind keyword is omitted exactly when the kind is `Function`
and the segment has neither a table use nor a bind var; in every other
case the kind keyword is written before the list, and the resulting
output genuinely differs from the keyword-less form. -/
theorem elem_segment_func_keyword_omission :
    ∀ (c : WriteContext) (name : Option (List Char)) (table : Option Var)
      (offset : Option ConstantExpression) (kind : ExternalKind)
      (list : List Var) (out : List Char),
      ((kind = ExternalKind.Function ∧ table = none ∧ name = none) →
        WriteElementSegment c
            ⟨name, SegmentType.Active, table, offset,
              ElementList.withVars ⟨kind, list⟩⟩ out =
          WriteElementSegmentNoKind c name table offset list out)
      ∧ (¬(kind = ExternalKind.Function ∧ table = none ∧ name = none) →
        WriteElementSegment c
            ⟨name, SegmentType.Active, table, offset,
              ElementList.withVars ⟨kind, list⟩⟩ out =
          WriteElementSegmentWithKind c name table offset kind list out
        ∧ (WriteElementSegment c
            ⟨name, SegmentType.Active, table, offset,
              ElementList.withVars ⟨kind, list⟩⟩ out).2 ≠
          (WriteElementSegmentNoKind c name table offset list out).2) := by
  intro c name table offset kind list out
  constructor
  · rintro ⟨hk, ht, hn⟩
    subst hk; subst ht; subst hn
    simp [WriteElementSegment, WriteElementSegmentNoKind]
  · intro hnc
    have hcond : kind ≠ ExternalKind.Function ∨ table.isSome = true
        ∨ name.isSome = true := by
      by_contra hno
      push_neg at hno
      obtain ⟨h1, h2, h3⟩ := hno
      have ht : table = none := by
        cases table with
        | none => rfl
        | some x => exact absurd rfl h2
      have hn : name = none := by
        cases name with
        | none => rfl
        | some x => exact absurd rfl h3
      exact hnc ⟨h1, ht, hn⟩
    constructor
    · simp only [WriteElementSegment, WriteElementSegmentWithKind]
      rw [if_pos hcond]
    · simp only [WriteElementSegment, WriteElementSegmentNoKind]
      rw [if_pos hcond]
      exact elem_kind_tail_ne
        (WriteElemSegActivePrefix c name table offset out).1 kind list
        (WriteElemSegActivePrefix c name table offset out).2

theorem elem_segment_func_keyword_omission_witness :
    (WriteElementSegment initContext
        ⟨none, SegmentType.Active, none, none,
          ElementList.withVars ⟨ExternalKind.Function, [Var.idx 0]⟩⟩ [] =
      WriteElementSegmentNoKind initContext none none none [Var.idx 0] [])
    ∧ (WriteElementSegment initContext
        ⟨none, SegmentType.Active, none, none,
          ElementList.withVars ⟨ExternalKind.Table, [Var.idx 0]⟩⟩ [] =
        WriteElementSegmentWithKind initContext none none none
          ExternalKind.Table [Var.idx 0] []
      ∧ (WriteElementSegment initContext
          ⟨none, SegmentType.Active, none, none,
            ElementList.withVars ⟨ExternalKind.Table, [Var.idx 0]⟩⟩ []).2 ≠
        (WriteElementSegmentNoKind initContext none none none
          [Var.idx 0] []).2) :=
  ⟨(elem_segment_func_keyword_omission initContext none none none
      ExternalKind.Function [Var.idx 0] []).1 ⟨rfl, rfl, rfl⟩,
   (elem_segment_func_keyword_omission initContext none none none
      ExternalKind.Table [Var.idx 0] []).2 (by decide)⟩
